import Mathlib

/-!
Verification of the offline corpus-to-index transformation of the
advancedtherapist repository (`data-processor.js`, class `EpisodeProcessor`).

Strings are modelled as `List Char`; a document is its raw text, a corpus is a
list of `(filename, content)` pairs.  Fallible code is modelled with `Option`
(`generateTitle` returns `none` on the null-dereference fault branch).
JavaScript numbers are modelled as exact rationals (`ℚ`) for similarity scores,
`Math.round` as Mathlib's `round` (both compute `⌊x + 1/2⌋`), and
`Array.prototype.sort` — stable since ES2019 — as a stable insertion sort.
-/

namespace ATP

/-- Character strings, modelled as lists of Unicode characters. -/
abbrev Str := List Char

/-- The set of characters treated as whitespace by JavaScript's `String.trim`
and by `\s` in regular expressions (WhiteSpace plus LineTerminator). -/
def jsWhitespace (c : Char) : Bool :=
  c = ' ' || c = '\t' || c = '\n' || c = '\r' ||
  c = '\x0b' || c = '\x0c' || c = '\u00A0' || c = '\u1680' ||
  ('\u2000' ≤ c && c ≤ '\u200A') || c = '\u2028' || c = '\u2029' ||
  c = '\u202F' || c = '\u205F' || c = '\u3000' || c = '\uFEFF'

/-- Embedding of JavaScript `String.prototype.trim`. -/
def trimStr (l : Str) : Str :=
  ((l.dropWhile jsWhitespace).reverse.dropWhile jsWhitespace).reverse

/-- Embedding of JavaScript `String.prototype.split` with a one-character
separator: `''.split(s) = ['']`, and every separator occurrence starts a new
(possibly empty) piece. -/
def splitChar (sep : Char) : Str → List Str
  | [] => [[]]
  | c :: cs =>
    if c = sep then [] :: splitChar sep cs
    else
      match splitChar sep cs with
      | [] => [[c]]
      | h :: rest => (c :: h) :: rest

/-- Embedding of `content.split('\n')` from `parseMarkdown`. -/
def splitLines (content : Str) : List Str := splitChar '\n' content

/-- Token `".md"`. -/
def mdSuffixTok : Str := ".md".toList

/-- Token `"番外編"`, the extra-episode id marker. -/
def banPreTok : Str := "番外編".toList

/-- Token `"##"`, the level-2 heading marker. -/
def hhTok : Str := "##".toList

/-- Token `"###"`, the level-3 heading marker. -/
def hhhTok : Str := "###".toList

/-- Token `"## サマリー"`, the summary section header marker. -/
def sumHeaderTok : Str := "## サマリー".toList

/-- Token `"サマリー"`. -/
def sumTok : Str := "サマリー".toList

/-- A nonempty all-ASCII-digit string, i.e. a match for the regex `\d+`. -/
def digitsNonempty (s : Str) : Bool :=
  !s.isEmpty && s.all Char.isDigit

/-- Whether a filename stem matches the episode-id regex alternatives
`\d+(?:-\d+)?` or `番外編-\d+` (the anchored group of `extractEpisodeId`). -/
def isValidId (s : Str) : Bool :=
  match splitChar '-' s with
  | [a] => digitsNonempty a
  | [a, b] => (digitsNonempty a && digitsNonempty b) || (a = banPreTok && digitsNonempty b)
  | _ => false

/-- Embedding of `extractEpisodeId`: the filename must match
`/^(\d+(?:-\d+)?|番外編-\d+)\.md$/`; the returned id is the captured group,
i.e. the filename with the `.md` suffix removed. -/
def extractEpisodeId (f : Str) : Option Str :=
  if mdSuffixTok <:+ f then
    if isValidId (f.take (f.length - 3)) then some (f.take (f.length - 3)) else none
  else none

/-- The fixed theme vocabulary `themePatterns` of `extractThemes`. -/
def themePatterns : List Str :=
  ["働き方".toList, "キャリア".toList, "理学療法".toList, "歴史".toList,
   "メンタルヘルス".toList, "精神医療".toList, "教育".toList, "研究".toList,
   "起業".toList, "ビジネス".toList, "哲学".toList, "科学".toList,
   "エビデンス".toList, "評価".toList, "治療".toList, "公衆衛生".toList,
   "地域包括ケア".toList, "高齢化".toList, "介護".toList, "発達障害".toList,
   "認知症".toList, "うつ".toList, "ストレス".toList, "スポーツ".toList,
   "リハビリテーション".toList, "身体".toList, "運動療法".toList]

/-- The fixed keyword vocabulary `importantTerms` of `extractKeywords`. -/
def importantTerms : List Str :=
  ["セラピスト".toList, "理学療法士".toList, "PT".toList, "OT".toList,
   "作業療法士".toList, "患者".toList, "治療".toList, "評価".toList,
   "介入".toList, "リハビリ".toList, "病院".toList, "施設".toList,
   "地域".toList, "在宅".toList, "訪問".toList, "エビデンス".toList,
   "EBM".toList, "研究".toList, "論文".toList, "学術".toList,
   "教育".toList, "養成".toList, "大学".toList, "協会".toList,
   "資格".toList, "メンタル".toList, "精神".toList, "心理".toList,
   "ストレス".toList, "ウェルビーイング".toList, "起業".toList, "独立".toList,
   "フリーランス".toList, "コンサル".toList, "運動".toList, "身体".toList,
   "機能".toList, "動作".toList, "姿勢".toList]

/-- Embedding of `extractThemes`: push every vocabulary term contained in the
whole document text (JavaScript `String.includes` is substring containment),
then deduplicate keeping first occurrences (`[...new Set(themes)]`). -/
def extractThemes (content : Str) : List Str :=
  (themePatterns.filter (fun t => decide (t <:+: content))).dedup

/-- Embedding of one `extractKeywords(text, keywordSet)` call: for each term of
`importantTerms` in order, add it to the accumulated keyword list if the text
contains it and it is not already present (`Set.add`). -/
def addLineKeywords (line : Str) (acc : List Str) : List Str :=
  importantTerms.foldl (fun a t => if t <:+: line ∧ t ∉ a then a ++ [t] else a) acc

/-- Embedding of `line.replace(/^###\s*/, '')` from the section extraction. -/
def stripSectionHashes (l : Str) : Str :=
  if hhhTok <+: l then (l.drop 3).dropWhile jsWhitespace else l

/-- Embedding of `line.replace(/◆\s*/, '')`: remove the first `◆` together
with the whitespace that follows it. -/
def removeDiamond : Str → Str
  | [] => []
  | c :: r => if c = '◆' then r.dropWhile jsWhitespace else c :: removeDiamond r

/-- Embedding of `line.replace(/^>\s*/, '')` applied to the joined summary. -/
def stripQuote : Str → Str
  | '>' :: r => r.dropWhile jsWhitespace
  | l => l

/-- Loop state of the line scan in `parseMarkdown`: the `inSummary` flag and
the accumulated `summaryLines`, `sections` and keyword set. -/
structure PState where
  inSummary : Bool
  summaryLines : List Str
  sectionAcc : List Str
  keywordAcc : List Str
deriving DecidableEq

/-- Embedding of one iteration of the `parseMarkdown` line loop: trim the
line; a `## サマリー` line sets the summary flag and `continue`s (skipping the
section and keyword extraction); otherwise the summary state is updated, then
`###` lines contribute a section, then keywords are extracted from the line. -/
def mdStep (st : PState) (rawLine : Str) : PState :=
  let line := trimStr rawLine
  if sumHeaderTok <+: line then
    { st with inSummary := true }
  else
    let st1 :=
      if st.inSummary then
        if hhTok <+: line then { st with inSummary := false }
        else if line = [] then st
        else { st with summaryLines := st.summaryLines ++ [line] }
      else st
    let st2 :=
      if hhhTok <+: line then
        { st1 with sectionAcc := st1.sectionAcc ++ [removeDiamond (stripSectionHashes line)] }
      else st1
    { st2 with keywordAcc := addLineKeywords line st2.keywordAcc }

/-- Result record of `parseMarkdown`. -/
structure ParsedDoc where
  summary : Str
  themes : List Str
  keywords : List Str
  sections : List Str
  content : Str
deriving DecidableEq

/-- Embedding of `parseMarkdown`: run the line loop over `content.split('\n')`,
then assemble `summaryLines.join(' ').replace(/^>\s*/, '').substring(0, 500)`,
the themes of the whole content, the accumulated keywords and sections. -/
def parseMarkdown (content : Str) : ParsedDoc :=
  let st := (splitLines content).foldl mdStep ⟨false, [], [], []⟩
  { summary := (stripQuote (List.intercalate " ".toList st.summaryLines)).take 500
    themes := extractThemes content
    keywords := st.keywordAcc
    sections := st.sectionAcc
    content := content }

/-- Embedding of the loop in `generateTitle` that returns the first line
starting with `##` and not containing `サマリー`. -/
def findHeadingLine : List Str → Option Str
  | [] => none
  | l :: ls => if hhTok <+: l ∧ ¬(sumTok <:+: l) then some l else findHeadingLine ls

/-- Embedding of `line.replace(/^##\s*/, '')` from `generateTitle`. -/
def stripTitleHashes (l : Str) : Str :=
  if hhTok <+: l then (l.drop 2).dropWhile jsWhitespace else l

/-- Body of `generateTitle` after the id has been resolved (non-null): the
sentinel id `"0"` gives the fixed title, a `番外編` id gives the label plus
`id.split('-')[1]` (JavaScript renders a missing part as `"undefined"`),
otherwise the first `##` line not containing `サマリー` is stripped and
trimmed, with a generated label as fallback. -/
def generateTitleWith (id : Str) (content : Str) : Str :=
  if id = "0".toList then "番組の方向性".toList
  else if banPreTok <+: id then
    "番外編 ".toList ++ (splitChar '-' id).getD 1 "undefined".toList
  else
    match findHeadingLine (splitLines content) with
    | some l => trimStr (stripTitleHashes l)
    | none => "エピソード ".toList ++ id

/-- Embedding of `generateTitle(filename, content)`: it re-extracts the id
from the filename; when `extractEpisodeId` yields `null`, the statement
`id.startsWith('番外編')` dereferences `null` and throws a `TypeError` —
modelled as `none`. -/
def generateTitle (filename content : Str) : Option Str :=
  match extractEpisodeId filename with
  | none => none
  | some id => some (generateTitleWith id content)

/-- An entry of `relatedEpisodes`: id, title and rounded percentage score. -/
structure Related where
  id : Str
  title : Str
  similarity : ℤ
deriving DecidableEq

/-- The durable episode record built by `processAllFiles`. -/
structure Episode where
  id : Str
  filename : Str
  title : Str
  summary : Str
  themes : List Str
  keywords : List Str
  sections : List Str
  content : Str
  relatedEpisodes : List Related
deriving DecidableEq

/-- Embedding of `calculateSimilarity`: Dice coefficients of the keyword and
theme sets (`new Set(...)` deduplicates), guarded against a zero denominator,
combined as `keywordScore * 0.6 + themeScore * 0.4`. -/
def calculateSimilarity (episode1 episode2 : Episode) : ℚ :=
  let keywords1 := episode1.keywords.dedup
  let keywords2 := episode2.keywords.dedup
  let themes1 := episode1.themes.dedup
  let themes2 := episode2.themes.dedup
  let sharedKeywords := (keywords1.filter (fun k => k ∈ keywords2)).length
  let sharedThemes := (themes1.filter (fun t => t ∈ themes2)).length
  let totalKeywords := keywords1.length + keywords2.length
  let totalThemes := themes1.length + themes2.length
  let keywordScore : ℚ := if 0 < totalKeywords then (2 * sharedKeywords : ℚ) / totalKeywords else 0
  let themeScore : ℚ := if 0 < totalThemes then (2 * sharedThemes : ℚ) / totalThemes else 0
  keywordScore * (6 / 10) + themeScore * (4 / 10)

/-- Stable insertion of one element into a list: the new element is placed
after every existing element `y` with `le y x`.  For the total preorders used
by the two `Array.prototype.sort` calls this reproduces the stable sort. -/
def insertSorted (le : α → α → Prop) [DecidableRel le] (x : α) : List α → List α
  | [] => [x]
  | y :: ys => if le y x then y :: insertSorted le x ys else x :: y :: ys

/-- Stable sort by repeated insertion, used to model `Array.prototype.sort`
with a numeric comparator (stable since ES2019). -/
def sortWith (le : α → α → Prop) [DecidableRel le] (l : List α) : List α :=
  l.foldl (fun acc x => insertSorted le x acc) []

/-- Descending comparison on `similarity`, the comparator
`(a, b) => b.similarity - a.similarity`. -/
def relOrder (a b : Related) : Prop := b.similarity ≤ a.similarity

instance : DecidableRel relOrder := fun a b => inferInstanceAs (Decidable (_ ≤ _))

/-- Embedding of `findRelatedEpisodes`: score every other episode, keep those
with `similarity >= threshold` as `{id, title, round(similarity * 100)}`
entries, sort descending by similarity, take the first five. -/
def findRelatedEpisodes (currentEpisode : Episode) (allEpisodes : List Episode)
    (threshold : ℚ) : List Related :=
  let related := allEpisodes.filterMap (fun episode =>
    if episode.id ≠ currentEpisode.id then
      let similarity := calculateSimilarity currentEpisode episode
      if threshold ≤ similarity then
        some ⟨episode.id, episode.title, round (similarity * 100)⟩
      else none
    else none)
  (sortWith relOrder related).take 5

/-- Embedding of `parseInt` on an all-digit string. -/
def parseNat (s : Str) : ℕ := s.foldl (fun a c => a * 10 + (c.toNat - 48)) 0

/-- Embedding of `getOrder` from the sort comparator of `processAllFiles`:
`"0"` maps to `0`, a `番外編` id to `1000` plus its numeric suffix, any other
id to ten times its integer part plus its hyphen suffix (default `0`). -/
def getOrder (id : Str) : ℕ :=
  if id = "0".toList then 0
  else if banPreTok <+: id then 1000 + parseNat ((splitChar '-' id).getD 1 [])
  else
    parseNat ((splitChar '-' id).getD 0 []) * 10 +
      (match (splitChar '-' id).get? 1 with
       | some b => parseNat b
       | none => 0)

/-- Ascending comparison by `getOrder` on ids, the episode sort comparator
`(a, b) => getOrder(a.id) - getOrder(b.id)`. -/
def epOrder (a b : Episode) : Prop := getOrder a.id ≤ getOrder b.id

instance : DecidableRel epOrder := fun a b => inferInstanceAs (Decidable (_ ≤ _))

/-- The record built for one accepted file in the first pass of
`processAllFiles`: the extracted id, the filename, the title (the id having
already been resolved), and the fields of `parseMarkdown`; `relatedEpisodes`
is filled in by the second pass. -/
def buildEpisode (episodeId : Str) (fc : Str × Str) : Episode :=
  let parsed := parseMarkdown fc.2
  { id := episodeId
    filename := fc.1
    title := generateTitleWith episodeId fc.2
    summary := parsed.summary
    themes := parsed.themes
    keywords := parsed.keywords
    sections := parsed.sections
    content := parsed.content
    relatedEpisodes := [] }

/-- First pass of `processAllFiles`: keep `.md` files other than `README.md`
(the `readdirSync` filter), skip filenames without a valid episode id
(`if (!episodeId) continue`), and build each record. -/
def passOne (files : List (Str × Str)) : List Episode :=
  (files.filter (fun fc => mdSuffixTok <:+ fc.1 ∧ fc.1 ≠ "README.md".toList)).filterMap
    (fun fc => (extractEpisodeId fc.1).map (fun episodeId => buildEpisode episodeId fc))

/-- Embedding of `processAllFiles` on a directory listing given as
`(filename, content)` pairs: first pass, then attach `relatedEpisodes`
against the full first-pass list (second pass), then sort by `getOrder`. -/
def processAllFiles (files : List (Str × Str)) : List Episode :=
  let pass1 := passOne files
  let pass2 := pass1.map (fun ep => { ep with relatedEpisodes := findRelatedEpisodes ep pass1 (3 / 10) })
  sortWith epOrder pass2

/-! Generic facts about the stable insertion sort. -/

theorem insertSorted_perm (le : α → α → Prop) [DecidableRel le] (x : α) (l : List α) :
    List.Perm (insertSorted le x l) (x :: l) := by
  induction l with
  | nil => exact List.Perm.refl _
  | cons y ys ih =>
    unfold insertSorted
    by_cases h : le y x
    · simpa [h] using (ih.cons y).trans (List.Perm.swap x y ys)
    · simp [h]

theorem sortWith_foldl_perm (le : α → α → Prop) [DecidableRel le] (l acc : List α) :
    List.Perm (l.foldl (fun acc x => insertSorted le x acc) acc) (acc ++ l) := by
  induction l generalizing acc with
  | nil => simp
  | cons x xs ih =>
    have h1 : (x :: xs).foldl (fun acc x => insertSorted le x acc) acc
        = xs.foldl (fun acc x => insertSorted le x acc) (insertSorted le x acc) := rfl
    rw [h1]
    exact (ih _).trans (((insertSorted_perm le x acc).append_right xs).trans List.perm_middle.symm)

theorem sortWith_perm (le : α → α → Prop) [DecidableRel le] (l : List α) :
    List.Perm (sortWith le l) l := by
  simpa using sortWith_foldl_perm le l []

theorem mem_sortWith (le : α → α → Prop) [DecidableRel le] (l : List α) (z : α) :
    z ∈ sortWith le l ↔ z ∈ l :=
  (sortWith_perm le l).mem_iff

theorem length_sortWith (le : α → α → Prop) [DecidableRel le] (l : List α) :
    (sortWith le l).length = l.length :=
  (sortWith_perm le l).length_eq

theorem pairwise_insertSorted (le : α → α → Prop) [DecidableRel le]
    (htrans : ∀ a b c, le a b → le b c → le a c) (htotal : ∀ a b, le a b ∨ le b a)
    (x : α) (l : List α) (h : l.Pairwise le) : (insertSorted le x l).Pairwise le := by
  induction l with
  | nil => simp [insertSorted]
  | cons y ys ih =>
    rcases List.pairwise_cons.mp h with ⟨hy, hys⟩
    unfold insertSorted
    by_cases hle : le y x
    · simp only [hle, if_true]
      refine List.pairwise_cons.mpr ⟨?_, ih hys⟩
      intro z hz
      rcases List.mem_cons.mp ((insertSorted_perm le x ys).mem_iff.mp hz) with rfl | hz
      · exact hle
      · exact hy z hz
    · simp only [hle, if_false]
      have hxy : le x y := (htotal x y).resolve_right hle
      refine List.pairwise_cons.mpr ⟨?_, h⟩
      intro z hz
      rcases List.mem_cons.mp hz with rfl | hz
      · exact hxy
      · exact htrans x y z hxy (hy z hz)

theorem pairwise_sortWith (le : α → α → Prop) [DecidableRel le]
    (htrans : ∀ a b c, le a b → le b c → le a c) (htotal : ∀ a b, le a b ∨ le b a)
    (l : List α) : (sortWith le l).Pairwise le := by
  suffices h : ∀ acc : List α, acc.Pairwise le →
      (l.foldl (fun acc x => insertSorted le x acc) acc).Pairwise le from
    h [] List.Pairwise.nil
  induction l with
  | nil => intro acc hacc; exact hacc
  | cons x xs ih =>
    intro acc hacc
    exact ih (insertSorted le x acc) (pairwise_insertSorted le htrans htotal x acc hacc)

/-! Rounding: Mathlib `round` computes the same `⌊x + 1/2⌋` as `Math.round`. -/

theorem round_mono_rat {x y : ℚ} (h : x ≤ y) : round x ≤ round y := by
  rw [round_eq, round_eq]
  exact Int.floor_le_floor (by linarith)

/-! Counting shared elements: the list-level count used by
`calculateSimilarity` equals the cardinality of the intersection of the
corresponding finite sets. -/

theorem length_filter_mem_eq_card_inter (l1 l2 : List Str) :
    (l1.dedup.filter (fun k => decide (k ∈ l2))).length =
      (l1.toFinset ∩ l2.toFinset).card := by
  have nd : (l1.dedup.filter (fun k => decide (k ∈ l2))).Nodup :=
    l1.nodup_dedup.filter _
  calc (l1.dedup.filter (fun k => decide (k ∈ l2))).length
      = (l1.dedup.filter (fun k => decide (k ∈ l2))).toFinset.card :=
        (List.toFinset_card_of_nodup nd).symm
    _ = (l1.toFinset ∩ l2.toFinset).card := by
        congr 1
        ext a
        simp [List.mem_filter, Finset.mem_inter]

theorem dedup_length_eq_card (l : List Str) : l.dedup.length = l.toFinset.card :=
  (List.card_toFinset l).symm

theorem dedup_toFinset (l : List Str) : l.dedup.toFinset = l.toFinset := by
  ext a
  simp

/-- Episode A of the worked similarity example: keywords PT and 研究,
theme 教育. -/
def exampleEpisodeA : Episode :=
  { id := "A".toList, filename := [], title := [], summary := [],
    themes := ["教育".toList], keywords := ["PT".toList, "研究".toList],
    sections := [], content := [], relatedEpisodes := [] }

/-- Episode B of the worked similarity example: keyword PT, themes 教育 and
科学. -/
def exampleEpisodeB : Episode :=
  { id := "B".toList, filename := [], title := [], summary := [],
    themes := ["教育".toList, "科学".toList], keywords := ["PT".toList],
    sections := [], content := [], relatedEpisodes := [] }

/-- C1: for every pair of episode records a and b, the similarity score equals
0.6·keywordScore + 0.4·themeScore, where keywordScore is the Dice coefficient
2·|keywords(a) ∩ keywords(b)| / (|keywords(a)| + |keywords(b)|) on the
deduplicated keyword sets (0 when the denominator is 0) and themeScore is the
same over themes; on the worked example (A: keywords PT, 研究, theme 教育;
B: keyword PT, themes 教育, 科学) the score is 2/3 and rounds to 67. -/
theorem spec_C1 :
    (∀ a b : Episode,
      calculateSimilarity a b =
        (6 / 10 : ℚ) *
          (if a.keywords.toFinset.card + b.keywords.toFinset.card = 0 then 0
           else (2 * ((a.keywords.toFinset ∩ b.keywords.toFinset).card : ℚ)) /
             ((a.keywords.toFinset.card : ℚ) + (b.keywords.toFinset.card : ℚ))) +
        (4 / 10 : ℚ) *
          (if a.themes.toFinset.card + b.themes.toFinset.card = 0 then 0
           else (2 * ((a.themes.toFinset ∩ b.themes.toFinset).card : ℚ)) /
             ((a.themes.toFinset.card : ℚ) + (b.themes.toFinset.card : ℚ)))) ∧
    calculateSimilarity exampleEpisodeA exampleEpisodeB = 2 / 3 ∧
    round (calculateSimilarity exampleEpisodeA exampleEpisodeB * 100) = 67 := by
  have hval : calculateSimilarity exampleEpisodeA exampleEpisodeB = 2 / 3 := by
    simp only [calculateSimilarity]
    have h1 : (List.filter (fun k => decide (k ∈ exampleEpisodeB.keywords.dedup))
        exampleEpisodeA.keywords.dedup).length = 1 := by decide
    have h2 : (List.filter (fun t => decide (t ∈ exampleEpisodeB.themes.dedup))
        exampleEpisodeA.themes.dedup).length = 1 := by decide
    have h3 : exampleEpisodeA.keywords.dedup.length = 2 := by decide
    have h4 : exampleEpisodeB.keywords.dedup.length = 1 := by decide
    have h5 : exampleEpisodeA.themes.dedup.length = 1 := by decide
    have h6 : exampleEpisodeB.themes.dedup.length = 2 := by decide
    rw [h1, h2, h3, h4, h5, h6]
    norm_num
  have hcomp : ∀ (n : ℕ) (x : ℚ), (if 0 < n then x else 0) = (if n = 0 then 0 else x) := by
    intro n x
    rcases Nat.eq_zero_or_pos n with h | h
    · simp [h]
    · simp [h, Nat.pos_iff_ne_zero.mp h]
  refine ⟨?_, hval, by rw [hval]; norm_num [round_eq]⟩
  intro a b
  simp only [calculateSimilarity]
  rw [length_filter_mem_eq_card_inter a.keywords b.keywords.dedup,
    length_filter_mem_eq_card_inter a.themes b.themes.dedup,
    dedup_toFinset, dedup_toFinset,
    dedup_length_eq_card, dedup_length_eq_card, dedup_length_eq_card,
    dedup_length_eq_card, hcomp, hcomp]
  push_cast
  ring

/-! Bounds on the similarity score. -/

theorem diceIf_nonneg (s t : ℕ) : (0 : ℚ) ≤ if 0 < t then 2 * (s : ℚ) / (t : ℚ) else 0 := by
  split
  · positivity
  · exact le_refl 0

theorem diceIf_le_one (s t : ℕ) (h : 2 * s ≤ t) :
    (if 0 < t then 2 * (s : ℚ) / (t : ℚ) else 0) ≤ 1 := by
  split
  · rename_i h0
    rw [div_le_one (by exact_mod_cast h0)]
    exact_mod_cast h
  · norm_num

theorem two_mul_shared_le_total (l1 l2 : List Str) :
    2 * (l1.dedup.filter (fun k => decide (k ∈ l2.dedup))).length ≤
      l1.dedup.length + l2.dedup.length := by
  have h1 : (l1.dedup.filter (fun k => decide (k ∈ l2.dedup))).length ≤ l1.dedup.length :=
    List.length_filter_le _ _
  have h2 : (l1.dedup.filter (fun k => decide (k ∈ l2.dedup))).length ≤ l2.dedup.length := by
    rw [length_filter_mem_eq_card_inter l1 l2.dedup, dedup_toFinset, dedup_length_eq_card]
    exact Finset.card_le_card Finset.inter_subset_right
  omega

theorem calculateSimilarity_nonneg (a b : Episode) : 0 ≤ calculateSimilarity a b := by
  simp only [calculateSimilarity]
  have hk := diceIf_nonneg
    ((a.keywords.dedup.filter (fun k => decide (k ∈ b.keywords.dedup))).length)
    (a.keywords.dedup.length + b.keywords.dedup.length)
  have ht := diceIf_nonneg
    ((a.themes.dedup.filter (fun t => decide (t ∈ b.themes.dedup))).length)
    (a.themes.dedup.length + b.themes.dedup.length)
  push_cast at hk ht ⊢
  nlinarith [hk, ht]

theorem calculateSimilarity_le_one (a b : Episode) : calculateSimilarity a b ≤ 1 := by
  simp only [calculateSimilarity]
  have hk := diceIf_le_one
    ((a.keywords.dedup.filter (fun k => decide (k ∈ b.keywords.dedup))).length)
    (a.keywords.dedup.length + b.keywords.dedup.length)
    (two_mul_shared_le_total a.keywords b.keywords)
  have ht := diceIf_le_one
    ((a.themes.dedup.filter (fun t => decide (t ∈ b.themes.dedup))).length)
    (a.themes.dedup.length + b.themes.dedup.length)
    (two_mul_shared_le_total a.themes b.themes)
  have hk0 := diceIf_nonneg
    ((a.keywords.dedup.filter (fun k => decide (k ∈ b.keywords.dedup))).length)
    (a.keywords.dedup.length + b.keywords.dedup.length)
  have ht0 := diceIf_nonneg
    ((a.themes.dedup.filter (fun t => decide (t ∈ b.themes.dedup))).length)
    (a.themes.dedup.length + b.themes.dedup.length)
  push_cast at hk ht hk0 ht0 ⊢
  nlinarith [hk, ht, hk0, ht0]

/-! Inversion principles for membership in the computed lists. -/

theorem mem_findRelatedEpisodes {cur : Episode} {all : List Episode} {θ : ℚ} {r : Related}
    (hr : r ∈ findRelatedEpisodes cur all θ) :
    ∃ ep, ep ∈ all ∧ ep.id ≠ cur.id ∧ θ ≤ calculateSimilarity cur ep ∧
      r = ⟨ep.id, ep.title, round (calculateSimilarity cur ep * 100)⟩ := by
  simp only [findRelatedEpisodes] at hr
  have hr2 := List.take_subset 5 _ hr
  rcases List.mem_filterMap.mp ((mem_sortWith relOrder _ r).mp hr2) with ⟨ep, hep, heq⟩
  by_cases h1 : ep.id ≠ cur.id
  · rw [if_pos h1] at heq
    by_cases h2 : θ ≤ calculateSimilarity cur ep
    · rw [if_pos h2] at heq
      exact ⟨ep, hep, h1, h2, (Option.some.inj heq).symm⟩
    · rw [if_neg h2] at heq
      cases heq
  · rw [if_neg h1] at heq
    cases heq

theorem findRelatedEpisodes_length_le (cur : Episode) (all : List Episode) (θ : ℚ) :
    (findRelatedEpisodes cur all θ).length ≤ 5 := by
  simp only [findRelatedEpisodes]
  rw [List.length_take]
  exact min_le_left _ _

theorem findRelatedEpisodes_sorted (cur : Episode) (all : List Episode) (θ : ℚ) :
    (findRelatedEpisodes cur all θ).Pairwise relOrder := by
  simp only [findRelatedEpisodes]
  refine List.Pairwise.sublist (List.take_sublist _ _) ?_
  exact pairwise_sortWith relOrder
    (fun a b c h1 h2 => le_trans h2 h1)
    (fun a b => le_total b.similarity a.similarity) _

theorem mem_processAllFiles {files : List (Str × Str)} {e : Episode}
    (he : e ∈ processAllFiles files) :
    ∃ ep, ep ∈ passOne files ∧
      e = { ep with relatedEpisodes := findRelatedEpisodes ep (passOne files) (3 / 10) } := by
  simp only [processAllFiles] at he
  rcases List.mem_map.mp ((mem_sortWith epOrder _ e).mp he) with ⟨ep, hep, h⟩
  exact ⟨ep, hep, h.symm⟩

theorem mem_passOne {files : List (Str × Str)} {ep : Episode} (h : ep ∈ passOne files) :
    ∃ fc episodeId, fc ∈ files ∧ (mdSuffixTok <:+ fc.1 ∧ fc.1 ≠ "README.md".toList) ∧
      extractEpisodeId fc.1 = some episodeId ∧ ep = buildEpisode episodeId fc := by
  simp only [passOne] at h
  rcases List.mem_filterMap.mp h with ⟨fc, hfc, heq⟩
  rcases List.mem_filter.mp hfc with ⟨hmem, hpred⟩
  rcases Option.map_eq_some'.mp heq with ⟨episodeId, hid, hbuild⟩
  exact ⟨fc, episodeId, hmem, by simpa using hpred, hid, hbuild.symm⟩

theorem getD_mem_of_lt {l : List α} {n : ℕ} (h : n < l.length) (d : α) : l.getD n d ∈ l := by
  rw [List.getD_eq_getElem l d h]
  exact List.getElem_mem h

theorem round_thirty : round (30 : ℚ) = 30 := by
  have h := round_intCast (α := ℚ) 30
  push_cast at h
  exact h

theorem round_hundred : round (100 : ℚ) = 100 := by
  have h := round_intCast (α := ℚ) 100
  push_cast at h
  exact h

/-- Demo corpus used by witnesses: two accepted files with overlapping
keywords and themes, so each episode has a nonempty related list. -/
def demoFiles : List (Str × Str) :=
  [("1.md".toList, "PTの研究".toList), ("2.md".toList, "PTと研究の大学".toList)]

/-- C3: for every episode record in the built corpus, `relatedEpisodes` has at
most 5 entries, each entry's similarity is an integer in [0, 100] and at least
30, and the entries are ordered descending by similarity. -/
theorem spec_C3 (files : List (Str × Str)) (e : Episode) (he : e ∈ processAllFiles files) :
    e.relatedEpisodes.length ≤ 5 ∧
    (∀ r ∈ e.relatedEpisodes, 30 ≤ r.similarity ∧ r.similarity ≤ 100) ∧
    e.relatedEpisodes.Pairwise (fun a b => b.similarity ≤ a.similarity) := by
  rcases mem_processAllFiles he with ⟨ep, hep, rfl⟩
  refine ⟨findRelatedEpisodes_length_le _ _ _, ?_, findRelatedEpisodes_sorted _ _ _⟩
  intro r hr
  rcases mem_findRelatedEpisodes hr with ⟨ep2, _, _, hθ, rfl⟩
  have hle1 := calculateSimilarity_le_one ep ep2
  constructor
  · have h1 : (30 : ℚ) ≤ calculateSimilarity ep ep2 * 100 := by linarith
    have h2 := round_mono_rat h1
    rwa [round_thirty] at h2
  · have h1 : calculateSimilarity ep ep2 * 100 ≤ (100 : ℚ) := by linarith
    have h2 := round_mono_rat h1
    rwa [round_hundred] at h2

set_option maxRecDepth 100000 in
/-- Witness for C3 at the demo corpus: the first related entry of the first
episode exists and satisfies the bounds. -/
theorem spec_C3_witness :
    ((processAllFiles demoFiles).getD 0 exampleEpisodeA).relatedEpisodes.length ≤ 5 ∧
    (30 ≤ (((processAllFiles demoFiles).getD 0 exampleEpisodeA).relatedEpisodes.getD 0
        ⟨[], [], 0⟩).similarity ∧
      (((processAllFiles demoFiles).getD 0 exampleEpisodeA).relatedEpisodes.getD 0
        ⟨[], [], 0⟩).similarity ≤ 100) :=
  ⟨(spec_C3 demoFiles ((processAllFiles demoFiles).getD 0 exampleEpisodeA)
      (getD_mem_of_lt (by with_unfolding_all decide) _)).1,
   (spec_C3 demoFiles ((processAllFiles demoFiles).getD 0 exampleEpisodeA)
      (getD_mem_of_lt (by with_unfolding_all decide) _)).2.1
    (((processAllFiles demoFiles).getD 0 exampleEpisodeA).relatedEpisodes.getD 0 ⟨[], [], 0⟩)
    (getD_mem_of_lt (by with_unfolding_all decide) _)⟩

/-- C6: for every episode record e in the built corpus, e.id never appears
among the ids listed in e.relatedEpisodes. -/
theorem spec_C6 (files : List (Str × Str)) (e : Episode) (he : e ∈ processAllFiles files)
    (r : Related) (hr : r ∈ e.relatedEpisodes) : r.id ≠ e.id := by
  rcases mem_processAllFiles he with ⟨ep, hep, rfl⟩
  have hr' : r ∈ findRelatedEpisodes ep (passOne files) (3 / 10) := hr
  rcases mem_findRelatedEpisodes hr' with ⟨ep2, _, hne, _, rfl⟩
  simpa using hne

/-- An accepted filename is its id followed by `".md"`; in particular the id
determines the filename. -/
theorem extractEpisodeId_eq_some {f i : Str} (h : extractEpisodeId f = some i) :
    f = i ++ mdSuffixTok ∧ isValidId i = true := by
  unfold extractEpisodeId at h
  by_cases hsuf : mdSuffixTok <:+ f
  · rw [if_pos hsuf] at h
    by_cases hval : isValidId (f.take (f.length - 3)) = true
    · rw [if_pos hval] at h
      obtain ⟨p, hp⟩ := hsuf
      have hlen : f.length = p.length + mdSuffixTok.length := by
        rw [← hp, List.length_append]
      have htake : f.take (f.length - 3) = p := by
        have h3 : mdSuffixTok.length = 3 := rfl
        rw [← hp, List.length_append, h3]
        simpa using List.take_left p mdSuffixTok
      rw [htake] at h hval
      cases h
      exact ⟨hp.symm, hval⟩
    · rw [if_neg hval] at h
      cases h
  · rw [if_neg hsuf] at h
    cases h

/-- C8: distinct accepted filenames resolve to distinct episode ids, and the
ids of the built corpus are pairwise distinct whenever the input filenames
are distinct. -/
theorem spec_C8 :
    (∀ f g i j, extractEpisodeId f = some i → extractEpisodeId g = some j →
      f ≠ g → i ≠ j) ∧
    (∀ files : List (Str × Str), (files.map Prod.fst).Nodup →
      (processAllFiles files).Pairwise (fun a b => a.id ≠ b.id)) := by
  have hinj : ∀ f g i j, extractEpisodeId f = some i → extractEpisodeId g = some j →
      f ≠ g → i ≠ j := by
    intro f g i j hf hg hfg hij
    apply hfg
    rw [(extractEpisodeId_eq_some hf).1, (extractEpisodeId_eq_some hg).1, hij]
  refine ⟨hinj, ?_⟩
  intro files hnd
  have hflt : ((files.filter
      (fun fc => decide (mdSuffixTok <:+ fc.1 ∧ fc.1 ≠ "README.md".toList))).map Prod.fst).Nodup :=
    hnd.sublist ((List.filter_sublist files).map Prod.fst)
  have hp1 : (passOne files).Pairwise (fun a b => a.id ≠ b.id) := by
    simp only [passOne]
    rw [List.pairwise_filterMap]
    have := (List.pairwise_map.mp hflt)
    refine this.imp ?_
    intro fc1 fc2 hne e1 h1 e2 h2
    rcases Option.map_eq_some'.mp h1 with ⟨i1, hi1, hb1⟩
    rcases Option.map_eq_some'.mp h2 with ⟨i2, hi2, hb2⟩
    subst hb1
    subst hb2
    simpa [buildEpisode] using hinj fc1.1 fc2.1 i1 i2 hi1 hi2 hne
  have hp2 : ((passOne files).map (fun ep =>
      { ep with relatedEpisodes := findRelatedEpisodes ep (passOne files) (3 / 10) })).Pairwise
      (fun a b => a.id ≠ b.id) := by
    rw [List.pairwise_map]
    exact hp1
  simp only [processAllFiles]
  have hperm := sortWith_perm epOrder ((passOne files).map (fun ep =>
    { ep with relatedEpisodes := findRelatedEpisodes ep (passOne files) (3 / 10) }))
  exact (hperm.pairwise_iff (fun hab => Ne.symm hab)).mpr hp2

/-- Demo corpus with two unacceptable filenames mixed in: README.md is
filtered out explicitly and notes.txt fails both the extension filter and the
id pattern. -/
def demoFilesBad : List (Str × Str) :=
  demoFiles ++ [("README.md".toList, "PT".toList), ("notes.txt".toList, "PT".toList)]

/-- C9: every input file whose name does not resolve to an episode id — in
particular README.md and notes.txt — is silently excluded: it produces no
episode record (the model is total, so no error either) and its filename
never appears in the built corpus. -/
theorem spec_C9 :
    (∀ (files : List (Str × Str)) (f : Str), extractEpisodeId f = none →
      ∀ e ∈ processAllFiles files, e.filename ≠ f) ∧
    extractEpisodeId "README.md".toList = none ∧
    extractEpisodeId "notes.txt".toList = none := by
  refine ⟨?_, by decide, by decide⟩
  intro files f hf e he hfe
  rcases mem_processAllFiles he with ⟨ep, hep, rfl⟩
  rcases mem_passOne hep with ⟨fc, id1, _, _, hid, rfl⟩
  have hfn : fc.1 = f := by simpa [buildEpisode] using hfe
  rw [hfn] at hid
  rw [hid] at hf
  cases hf

set_option maxRecDepth 100000 in
/-- Witness for C9: in a corpus listing that contains README.md and
notes.txt, the first built episode has a different filename, and both
filenames are rejected by the id resolver. -/
theorem spec_C9_witness :
    ((processAllFiles demoFilesBad).getD 0 exampleEpisodeA).filename ≠ "README.md".toList :=
  spec_C9.1 demoFilesBad "README.md".toList (by decide)
    ((processAllFiles demoFilesBad).getD 0 exampleEpisodeA)
    (getD_mem_of_lt (by with_unfolding_all decide) _)

/-- C10: generateTitle is only safe when the filename resolves to an id: on a
filename with no id it dereferences null and faults (modelled as `none`); in
the build pipeline this branch is unreachable, every built episode having a
title that generateTitle produced from its filename and content. -/
theorem spec_C10 :
    (∀ f c, extractEpisodeId f = none → generateTitle f c = none) ∧
    (∀ (files : List (Str × Str)) (e : Episode), e ∈ processAllFiles files →
      generateTitle e.filename e.content = some e.title) := by
  constructor
  · intro f c hf
    simp [generateTitle, hf]
  · intro files e he
    rcases mem_processAllFiles he with ⟨ep, hep, rfl⟩
    rcases mem_passOne hep with ⟨fc, id1, _, _, hid, rfl⟩
    show generateTitle (buildEpisode id1 fc).filename (buildEpisode id1 fc).content =
      some (buildEpisode id1 fc).title
    have hfn : (buildEpisode id1 fc).filename = fc.1 := by simp [buildEpisode]
    have hct : (buildEpisode id1 fc).content = fc.2 := by simp [buildEpisode, parseMarkdown]
    have htl : (buildEpisode id1 fc).title = generateTitleWith id1 fc.2 := by
      simp [buildEpisode]
    rw [hfn, hct, htl, generateTitle, hid]

set_option maxRecDepth 100000 in
/-- Witness for C10: a rejected filename faults, and the first demo episode's
title is exactly what generateTitle returns on its filename and content. -/
theorem spec_C10_witness :
    generateTitle "README.md".toList "x".toList = none ∧
    generateTitle ((processAllFiles demoFiles).getD 0 exampleEpisodeA).filename
        ((processAllFiles demoFiles).getD 0 exampleEpisodeA).content =
      some ((processAllFiles demoFiles).getD 0 exampleEpisodeA).title :=
  ⟨spec_C10.1 "README.md".toList "x".toList (by decide),
   spec_C10.2 demoFiles ((processAllFiles demoFiles).getD 0 exampleEpisodeA)
     (getD_mem_of_lt (by with_unfolding_all decide) _)⟩

/-! Facts about `splitChar` and the title scan. -/

theorem splitChar_ne_nil (sep : Char) (l : Str) : splitChar sep l ≠ [] := by
  cases l with
  | nil => simp [splitChar]
  | cons c cs =>
    by_cases h : c = sep
    · simp [splitChar, h]
    · cases heq : splitChar sep cs with
      | nil => simp [splitChar, h, heq]
      | cons h1 rest => simp [splitChar, h, heq]

theorem splitChar_decomp {sep : Char} :
    ∀ {cs h : Str} {tl : List Str}, splitChar sep cs = h :: tl →
      (tl = [] → cs = h) ∧
      (tl ≠ [] → ∃ cs', cs = h ++ sep :: cs' ∧ splitChar sep cs' = tl) := by
  intro cs
  induction cs with
  | nil =>
    intro h tl heq
    simp only [splitChar] at heq
    injection heq with h1 h2
    subst h1
    subst h2
    exact ⟨fun _ => rfl, fun hne => absurd rfl hne⟩
  | cons c cs ih =>
    intro h tl heq
    by_cases hc : c = sep
    · subst hc
      rw [splitChar, if_pos rfl] at heq
      injection heq with h1 h2
      subst h1
      subst h2
      exact ⟨fun h0 => absurd h0 (splitChar_ne_nil _ _), fun _ => ⟨cs, by simp, rfl⟩⟩
    · cases heq2 : splitChar sep cs with
      | nil => exact absurd heq2 (splitChar_ne_nil _ _)
      | cons h' rest' =>
        rw [splitChar, if_neg hc, heq2] at heq
        injection heq with h1 h2
        subst h1
        subst h2
        rcases ih heq2 with ⟨hnil, hne⟩
        constructor
        · intro h0
          rw [hnil h0]
        · intro h0
          rcases hne h0 with ⟨cs', hcs, hrest⟩
          exact ⟨cs', by rw [hcs]; rfl, hrest⟩

theorem prefix_append_sep {sep : Char} :
    ∀ (A : Str) {t : Str}, sep ∉ t → ∀ {B : Str}, t <+: A ++ sep :: B → t <+: A := by
  intro A
  induction A with
  | nil =>
    intro t hsep B h
    cases t with
    | nil => exact List.nil_prefix
    | cons c t' =>
      rcases List.cons_prefix_cons.mp h with ⟨rfl, _⟩
      exact absurd (List.mem_cons_self _ _) hsep
  | cons a A' ih =>
    intro t hsep B h
    cases t with
    | nil => exact List.nil_prefix
    | cons c t' =>
      rcases List.cons_prefix_cons.mp h with ⟨rfl, h2⟩
      exact List.cons_prefix_cons.mpr
        ⟨rfl, ih (fun hm => hsep (List.mem_cons_of_mem _ hm)) h2⟩

theorem infix_splitChar_iff {sep : Char} {t : Str} (hsep : sep ∉ t) (hne : t ≠ []) :
    ∀ content : Str, t <:+: content ↔ ∃ l ∈ splitChar sep content, t <:+: l := by
  intro content
  induction content with
  | nil => simp [splitChar]
  | cons c cs ih =>
    by_cases hc : c = sep
    · subst hc
      rw [splitChar, if_pos rfl, List.infix_cons_iff, List.exists_mem_cons_iff]
      have h1 : ¬ t <+: c :: cs := by
        cases t with
        | nil => exact fun _ => hne rfl
        | cons c' t' =>
          intro hp
          rcases List.cons_prefix_cons.mp hp with ⟨rfl, _⟩
          exact hsep (List.mem_cons_self _ _)
      have h2 : ¬ t <:+: ([] : Str) := fun h => hne (List.infix_nil.mp h)
      simp [h1, h2, ih]
    · cases heq : splitChar sep cs with
      | nil => exact absurd heq (splitChar_ne_nil _ _)
      | cons h rest =>
        have hsplit : splitChar sep (c :: cs) = (c :: h) :: rest := by
          simp [splitChar, hc, heq]
        rw [hsplit, List.exists_mem_cons_iff, List.infix_cons_iff, List.infix_cons_iff]
        have hpre : t <+: c :: cs ↔ t <+: c :: h := by
          rcases splitChar_decomp heq with ⟨hnil, hcons⟩
          by_cases h0 : rest = []
          · rw [hnil h0]
          · rcases hcons h0 with ⟨cs', hcs, _⟩
            subst hcs
            constructor
            · intro hp
              exact prefix_append_sep (c :: h) hsep hp
            · intro hp
              exact hp.trans (List.prefix_append _ _)
        have hcs' : t <:+: cs ↔ t <:+: h ∨ ∃ l ∈ rest, t <:+: l := by
          rw [ih, heq, List.exists_mem_cons_iff]
        rw [hpre, hcs']
        tauto

theorem infix_dropWhile_iff {p : Char → Bool} {t : Str} (hp : ∀ c ∈ t, p c = false)
    (hne : t ≠ []) (l : Str) : t <:+: l.dropWhile p ↔ t <:+: l := by
  constructor
  · intro h
    exact h.trans (List.dropWhile_suffix p).isInfix
  · induction l with
    | nil =>
      intro h
      exact h
    | cons c l' ih =>
      intro h
      by_cases hc : p c = true
      · rw [List.dropWhile_cons_of_pos hc]
        rcases List.infix_cons_iff.mp h with h1 | h1
        · cases t with
          | nil => exact absurd rfl hne
          | cons c' t' =>
            rcases List.cons_prefix_cons.mp h1 with ⟨rfl, _⟩
            rw [hp c' (List.mem_cons_self _ _)] at hc
            cases hc
        · exact ih h1
      · rw [List.dropWhile_cons_of_neg hc]
        exact h

theorem infix_reverse_swap (x y : Str) : x <:+: y.reverse ↔ x.reverse <:+: y :=
  ⟨fun h => by simpa using h.reverse, fun h => by simpa using h.reverse⟩

theorem infix_trimStr_iff {t : Str} (hp : ∀ c ∈ t, jsWhitespace c = false) (hne : t ≠ [])
    (l : Str) : t <:+: trimStr l ↔ t <:+: l := by
  unfold trimStr
  have hrev : ∀ c ∈ t.reverse, jsWhitespace c = false := fun c hc =>
    hp c (List.mem_reverse.mp hc)
  have hner : t.reverse ≠ [] := by simpa using hne
  rw [infix_reverse_swap, infix_dropWhile_iff hrev hner, List.reverse_infix,
    infix_dropWhile_iff hp hne]

theorem splitChar_no_sep {sep : Char} {s : Str} (h : sep ∉ s) : splitChar sep s = [s] := by
  induction s with
  | nil => rfl
  | cons c cs ih =>
    have hc : ¬(c = sep) := fun hh => h (hh ▸ List.mem_cons_self c cs)
    rw [splitChar, if_neg hc, ih (fun hm => h (List.mem_cons_of_mem c hm))]

theorem splitChar_append_sep {sep : Char} {a : Str} (ha : sep ∉ a) (b : Str) :
    splitChar sep (a ++ sep :: b) = a :: splitChar sep b := by
  induction a with
  | nil => simp [splitChar]
  | cons c cs ih =>
    have hc : ¬(c = sep) := fun hh => ha (hh ▸ List.mem_cons_self c cs)
    rw [List.cons_append, splitChar, if_neg hc, ih (fun hm => ha (List.mem_cons_of_mem c hm))]

theorem findHeadingLine_append_none {as : List Str}
    (h : ∀ a ∈ as, ¬(hhTok <+: a ∧ ¬ sumTok <:+: a)) (bs : List Str) :
    findHeadingLine (as ++ bs) = findHeadingLine bs := by
  induction as with
  | nil => rfl
  | cons a as ih =>
    rw [List.cons_append, findHeadingLine, if_neg (h a (List.mem_cons_self a as))]
    exact ih (fun x hx => h x (List.mem_cons_of_mem a hx))

theorem findHeadingLine_none {ls : List Str}
    (h : ∀ a ∈ ls, ¬(hhTok <+: a ∧ ¬ sumTok <:+: a)) : findHeadingLine ls = none := by
  have := findHeadingLine_append_none h []
  rwa [List.append_nil] at this

/-! Characterization of the keyword accumulation in `parseMarkdown`. -/

theorem mem_addLineKeywords (t line : Str) (acc : List Str) :
    t ∈ addLineKeywords line acc ↔ t ∈ acc ∨ (t ∈ importantTerms ∧ t <:+: line) := by
  unfold addLineKeywords
  suffices h : ∀ (terms acc : List Str),
      t ∈ terms.foldl (fun a u => if u <:+: line ∧ u ∉ a then a ++ [u] else a) acc ↔
        t ∈ acc ∨ (t ∈ terms ∧ t <:+: line) from h importantTerms acc
  intro terms
  induction terms with
  | nil => simp
  | cons u us ih =>
    intro acc
    rw [List.foldl_cons, ih]
    by_cases hu : u <:+: line ∧ u ∉ acc
    · rw [if_pos hu]
      constructor
      · rintro (hm | hm)
        · rcases List.mem_append.mp hm with hm | hm
          · exact Or.inl hm
          · rcases List.mem_singleton.mp hm with rfl
            exact Or.inr ⟨List.mem_cons_self _ _, hu.1⟩
        · exact Or.inr ⟨List.mem_cons_of_mem _ hm.1, hm.2⟩
      · rintro (hm | ⟨hm, hinf⟩)
        · exact Or.inl (List.mem_append_left _ hm)
        · rcases List.mem_cons.mp hm with rfl | hm
          · exact Or.inl (List.mem_append_right _ (List.mem_singleton.mpr rfl))
          · exact Or.inr ⟨hm, hinf⟩
    · rw [if_neg hu]
      constructor
      · rintro (hm | hm)
        · exact Or.inl hm
        · exact Or.inr ⟨List.mem_cons_of_mem _ hm.1, hm.2⟩
      · rintro (hm | ⟨hm, hinf⟩)
        · exact Or.inl hm
        · rcases List.mem_cons.mp hm with rfl | hm
          · rcases not_and_or.mp hu with h1 | h1
            · exact absurd hinf h1
            · exact Or.inl (not_not.mp h1)
          · exact Or.inr ⟨hm, hinf⟩

theorem mdStep_keywordAcc (st : PState) (l : Str) :
    (mdStep st l).keywordAcc =
      if sumHeaderTok <+: trimStr l then st.keywordAcc
      else addLineKeywords (trimStr l) st.keywordAcc := by
  by_cases h : sumHeaderTok <+: trimStr l
  · simp [mdStep, h]
  · simp [mdStep, h, apply_ite PState.keywordAcc]

theorem foldl_mdStep_keywordAcc (lines : List Str) (st : PState) :
    (lines.foldl mdStep st).keywordAcc =
      lines.foldl (fun acc l =>
        if sumHeaderTok <+: trimStr l then acc else addLineKeywords (trimStr l) acc)
        st.keywordAcc := by
  induction lines generalizing st with
  | nil => rfl
  | cons l ls ih =>
    rw [List.foldl_cons, List.foldl_cons, ih (mdStep st l), mdStep_keywordAcc]

theorem mem_foldl_keywords (t : Str) (lines : List Str) :
    ∀ acc : List Str,
      t ∈ lines.foldl (fun acc l =>
          if sumHeaderTok <+: trimStr l then acc else addLineKeywords (trimStr l) acc) acc ↔
        t ∈ acc ∨ ∃ l ∈ lines, ¬ sumHeaderTok <+: trimStr l ∧
          t ∈ importantTerms ∧ t <:+: trimStr l := by
  induction lines with
  | nil => simp
  | cons l ls ih =>
    intro acc
    rw [List.foldl_cons, ih, List.exists_mem_cons_iff]
    by_cases hl : sumHeaderTok <+: trimStr l
    · rw [if_pos hl]
      simp [hl]
    · rw [if_neg hl, mem_addLineKeywords]
      simp [hl, or_assoc]

/-- Membership in the keyword field of a parsed document: exactly the
vocabulary terms occurring in some trimmed line that is not a summary-header
line. -/
theorem parseMarkdown_keywords_iff (content t : Str) :
    t ∈ (parseMarkdown content).keywords ↔
      t ∈ importantTerms ∧ ∃ l ∈ splitLines content,
        ¬ sumHeaderTok <+: trimStr l ∧ t <:+: trimStr l := by
  show t ∈ ((splitLines content).foldl mdStep ⟨false, [], [], []⟩).keywordAcc ↔ _
  rw [foldl_mdStep_keywordAcc, mem_foldl_keywords]
  simp only [List.not_mem_nil, false_or]
  constructor
  · rintro ⟨l, hl, hhdr, hterm, hinf⟩
    exact ⟨hterm, l, hl, hhdr, hinf⟩
  · rintro ⟨hterm, l, hl, hhdr, hinf⟩
    exact ⟨l, hl, hhdr, hterm, hinf⟩

theorem extractThemes_eq (content : Str) :
    extractThemes content = themePatterns.filter (fun t => decide (t <:+: content)) := by
  unfold extractThemes
  exact List.dedup_eq_self.mpr ((by decide : themePatterns.Nodup).filter _)

/-- Counterexample to C5 as stated: the document consisting of the single line
"## サマリー理学療法士" contains the substring 理学療法士, yet its keyword
set is empty, because the keyword scan skips summary-header lines (the
`continue` in `parseMarkdown`); its theme set still picks up 理学療法 from
the whole text. -/
theorem spec_C5_counterexample :
    "理学療法士".toList <:+: "## サマリー理学療法士".toList ∧
    "理学療法士".toList ∈ importantTerms ∧
    (parseMarkdown "## サマリー理学療法士".toList).keywords = [] ∧
    "理学療法".toList ∈ (parseMarkdown "## サマリー理学療法士".toList).themes :=
  ⟨by decide, by decide, by decide, by decide⟩

/-- C5 (amended): the theme set is exactly the fixed theme vocabulary terms
occurring as substrings of the whole document text; the keyword set is
exactly the keyword vocabulary terms occurring in some trimmed line that is
not a summary-header line — equivalently, on documents with no summary-header
line the line-by-line keyword scan coincides with the single whole-text
operation match(text, vocabulary). -/
theorem spec_C5_amended :
    (∀ content : Str, (parseMarkdown content).themes =
      themePatterns.filter (fun t => decide (t <:+: content))) ∧
    (∀ content t : Str, t ∈ (parseMarkdown content).keywords ↔
      t ∈ importantTerms ∧ ∃ l ∈ splitLines content,
        ¬ sumHeaderTok <+: trimStr l ∧ t <:+: trimStr l) ∧
    (∀ content : Str, (∀ l ∈ splitLines content, ¬ sumHeaderTok <+: trimStr l) →
      ∀ t : Str, t ∈ (parseMarkdown content).keywords ↔
        t ∈ importantTerms ∧ t <:+: content) := by
  refine ⟨extractThemes_eq, parseMarkdown_keywords_iff, ?_⟩
  intro content hnohdr t
  rw [parseMarkdown_keywords_iff]
  constructor
  · rintro ⟨hterm, l, hl, _, hinf⟩
    have hws : ∀ c ∈ t, jsWhitespace c = false :=
      (by decide : ∀ u ∈ importantTerms, u ≠ [] ∧ ∀ c ∈ u, jsWhitespace c = false)
        t hterm |>.2
    have hne : t ≠ [] :=
      ((by decide : ∀ u ∈ importantTerms, u ≠ [] ∧ ∀ c ∈ u, jsWhitespace c = false)
        t hterm).1
    have hnl : '\n' ∉ t := fun hm => by
      have := hws '\n' hm
      simp [jsWhitespace] at this
    refine ⟨hterm, ?_⟩
    rw [infix_splitChar_iff hnl hne content]
    exact ⟨l, hl, (infix_trimStr_iff hws hne l).mp hinf⟩
  · rintro ⟨hterm, hinf⟩
    have hws : ∀ c ∈ t, jsWhitespace c = false :=
      (by decide : ∀ u ∈ importantTerms, u ≠ [] ∧ ∀ c ∈ u, jsWhitespace c = false)
        t hterm |>.2
    have hne : t ≠ [] :=
      ((by decide : ∀ u ∈ importantTerms, u ≠ [] ∧ ∀ c ∈ u, jsWhitespace c = false)
        t hterm).1
    have hnl : '\n' ∉ t := fun hm => by
      have := hws '\n' hm
      simp [jsWhitespace] at this
    rw [infix_splitChar_iff hnl hne content] at hinf
    rcases hinf with ⟨l, hl, hinf⟩
    exact ⟨hterm, l, hl, hnohdr l hl, (infix_trimStr_iff hws hne l).mpr hinf⟩

/-- Witness for C5 (amended): the document 理学療法士です has no summary
header, so the whole-text characterization applies and yields the keyword
理学療法士. -/
theorem spec_C5_amended_witness :
    "理学療法士".toList ∈ (parseMarkdown "理学療法士です".toList).keywords :=
  (spec_C5_amended.2.2 "理学療法士です".toList (by decide) "理学療法士".toList).mpr
    ⟨by decide, by decide⟩

/-! Characterization of the summary capture in `parseMarkdown`. -/

/-- The summary-relevant projection of one `parseMarkdown` loop iteration, on
an already-trimmed line: state is the `inSummary` flag plus the accumulated
`summaryLines`. -/
def sumStepT (st : Bool × List Str) (line : Str) : Bool × List Str :=
  if sumHeaderTok <+: line then (true, st.2)
  else if st.1 then
    (if hhTok <+: line then (false, st.2)
     else if line = [] then st
     else (st.1, st.2 ++ [line]))
  else st

theorem mdStep_sumProj (st : PState) (l : Str) :
    ((mdStep st l).inSummary, (mdStep st l).summaryLines) =
      sumStepT (st.inSummary, st.summaryLines) (trimStr l) := by
  by_cases h1 : sumHeaderTok <+: trimStr l
  · simp [mdStep, sumStepT, h1]
  · by_cases h2 : st.inSummary
    · by_cases h3 : hhTok <+: trimStr l
      · simp [mdStep, sumStepT, h1, h2, h3,
          apply_ite PState.inSummary, apply_ite PState.summaryLines]
      · by_cases h4 : trimStr l = []
        · simp [mdStep, sumStepT, h1, h2, h3, h4,
            (by decide : ¬ sumHeaderTok = []), (by decide : ¬ hhTok = []),
            apply_ite PState.inSummary, apply_ite PState.summaryLines]
        · simp [mdStep, sumStepT, h1, h2, h3, h4,
            apply_ite PState.inSummary, apply_ite PState.summaryLines]
    · simp [mdStep, sumStepT, h1, h2,
        apply_ite PState.inSummary, apply_ite PState.summaryLines]

theorem foldl_mdStep_sumProj : ∀ (lines : List Str) (st : PState),
    ((lines.foldl mdStep st).inSummary, (lines.foldl mdStep st).summaryLines) =
      (lines.map trimStr).foldl sumStepT (st.inSummary, st.summaryLines) := by
  intro lines
  induction lines with
  | nil => intro st; rfl
  | cons l ls ih =>
    intro st
    rw [List.foldl_cons, List.map_cons, List.foldl_cons, ih (mdStep st l), mdStep_sumProj]

/-- The summary of a parsed document, through the projected state machine on
trimmed lines. -/
theorem parseMarkdown_summary (content : Str) :
    (parseMarkdown content).summary =
      (stripQuote (List.intercalate " ".toList
        (((splitLines content).map trimStr).foldl sumStepT (false, [])).2)).take 500 := by
  have h := congrArg Prod.snd (foldl_mdStep_sumProj (splitLines content) ⟨false, [], [], []⟩)
  simp only [Prod.snd] at h
  show (stripQuote (List.intercalate " ".toList
      ((splitLines content).foldl mdStep ⟨false, [], [], []⟩).summaryLines)).take 500 = _
  rw [h]

theorem sumFold_no_header : ∀ (ls : List Str), (∀ l ∈ ls, ¬ sumHeaderTok <+: l) →
    ∀ acc, ls.foldl sumStepT (false, acc) = (false, acc) := by
  intro ls
  induction ls with
  | nil =>
    intro _ acc
    rfl
  | cons l ls ih =>
    intro h acc
    rw [List.foldl_cons]
    have hstep : sumStepT (false, acc) l = (false, acc) := by
      simp [sumStepT, h l (List.mem_cons_self _ _)]
    rw [hstep]
    exact ih (fun x hx => h x (List.mem_cons_of_mem _ hx)) acc

theorem sumFold_capture : ∀ (ls : List Str), (∀ l ∈ ls, ¬ hhTok <+: l) →
    ∀ acc, ls.foldl sumStepT (true, acc) =
      (true, acc ++ ls.filter (fun l => decide (l ≠ []))) := by
  intro ls
  induction ls with
  | nil =>
    intro _ acc
    simp
  | cons l ls ih =>
    intro h acc
    have hhh := h l (List.mem_cons_self _ _)
    have hhdr : ¬ sumHeaderTok <+: l := fun hs =>
      hhh ((by decide : hhTok <+: sumHeaderTok).trans hs)
    rw [List.foldl_cons]
    by_cases h0 : l = []
    · subst h0
      have hstep : sumStepT (true, acc) [] = (true, acc) := by
        simp [sumStepT, (by decide : ¬ sumHeaderTok = []), (by decide : ¬ hhTok = [])]
      rw [hstep, ih (fun x hx => h x (List.mem_cons_of_mem _ hx)) acc]
      simp
    · have hstep : sumStepT (true, acc) l = (true, acc ++ [l]) := by
        simp [sumStepT, hhdr, hhh, h0]
      rw [hstep, ih (fun x hx => h x (List.mem_cons_of_mem _ hx)) (acc ++ [l])]
      simp [h0, List.filter_cons, List.append_assoc]

/-- C7: for every document, the extracted summary is the non-empty trimmed
lines strictly between the summary-header line and the next level-2/level-3
heading line (or the end of the document when no heading follows), joined
with a single space, a leading quote-marker stripped, the result truncated to
500 characters; and a document with no summary-header line has an empty
summary. -/
theorem spec_C7 (content : Str) :
    (∀ pre hdr mid hd post,
      (splitLines content).map trimStr = pre ++ hdr :: (mid ++ hd :: post) →
      (∀ l ∈ pre, ¬ sumHeaderTok <+: l) → sumHeaderTok <+: hdr →
      (∀ l ∈ mid, ¬ hhTok <+: l) → hhTok <+: hd → ¬ sumHeaderTok <+: hd →
      (∀ l ∈ post, ¬ sumHeaderTok <+: l) →
      (parseMarkdown content).summary =
        (stripQuote (List.intercalate " ".toList
          (mid.filter (fun l => decide (l ≠ []))))).take 500) ∧
    (∀ pre hdr mid,
      (splitLines content).map trimStr = pre ++ hdr :: mid →
      (∀ l ∈ pre, ¬ sumHeaderTok <+: l) → sumHeaderTok <+: hdr →
      (∀ l ∈ mid, ¬ hhTok <+: l) →
      (parseMarkdown content).summary =
        (stripQuote (List.intercalate " ".toList
          (mid.filter (fun l => decide (l ≠ []))))).take 500) ∧
    ((∀ l ∈ (splitLines content).map trimStr, ¬ sumHeaderTok <+: l) →
      (parseMarkdown content).summary = []) := by
  refine ⟨?_, ?_, ?_⟩
  · intro pre hdr mid hd post hsplit hpre hhdr hmid hhd hhdnot hpost
    rw [parseMarkdown_summary, hsplit, List.foldl_append, sumFold_no_header pre hpre [],
      List.foldl_cons]
    have hstep1 : sumStepT (false, []) hdr = (true, []) := by
      simp [sumStepT, hhdr]
    rw [hstep1, List.foldl_append, sumFold_capture mid hmid [], List.foldl_cons]
    have hstep2 : sumStepT (true, [] ++ mid.filter (fun l => decide (l ≠ []))) hd =
        (false, [] ++ mid.filter (fun l => decide (l ≠ []))) := by
      simp [sumStepT, hhdnot, hhd]
    rw [hstep2, sumFold_no_header post hpost _]
    simp
  · intro pre hdr mid hsplit hpre hhdr hmid
    rw [parseMarkdown_summary, hsplit, List.foldl_append, sumFold_no_header pre hpre [],
      List.foldl_cons]
    have hstep1 : sumStepT (false, []) hdr = (true, []) := by
      simp [sumStepT, hhdr]
    rw [hstep1, sumFold_capture mid hmid []]
    simp
  · intro hno
    rw [parseMarkdown_summary, sumFold_no_header _ hno []]
    rfl

/-- Witness for C7: a concrete document with one summary section delimited by
a level-3 heading. -/
theorem spec_C7_witness :
    (parseMarkdown "x\n## サマリー\n\n> 概要です\n続き\n### 次\nz".toList).summary =
      (stripQuote (List.intercalate " ".toList
        (["".toList, "> 概要です".toList, "続き".toList].filter
          (fun l => decide (l ≠ []))))).take 500 :=
  (spec_C7 "x\n## サマリー\n\n> 概要です\n続き\n### 次\nz".toList).1
    ["x".toList] "## サマリー".toList ["".toList, "> 概要です".toList, "続き".toList]
    "### 次".toList ["z".toList]
    (by decide) (by decide) (by decide) (by decide) (by decide) (by decide) (by decide)

/-- Counterexample to C4 as stated: on 5.md with content "### Foo\n## Bar",
the scan accepts the level-3 line "### Foo" (the code tests
startsWith("##"), which a "###" line passes), producing the title "# Foo" —
while the unique level-2 heading line is "## Bar", whose stripped trimmed
text is "Bar". -/
theorem spec_C4_counterexample :
    generateTitle "5.md".toList "### Foo\n## Bar".toList = some "# Foo".toList ∧
    (splitLines "### Foo\n## Bar".toList).filter
      (fun l => decide (hhTok <+: l ∧ ¬ hhhTok <+: l)) = ["## Bar".toList] ∧
    trimStr (stripTitleHashes "## Bar".toList) = "Bar".toList ∧
    "# Foo".toList ≠ "Bar".toList :=
  ⟨by decide, by decide, by decide, by decide⟩

/-- C4 (amended): for every accepted id, the derived title is: the fixed
constant when the id is "0"; the extra-episode label plus the numeric suffix
for a 番外編 id; otherwise the stripped trimmed text of the first line that
starts with the "##" marker (which also matches level-3 headings) and does
not contain the サマリー token anywhere; and a generated label containing the
id when no such line exists. -/
theorem spec_C4_amended :
    (∀ c : Str, generateTitleWith "0".toList c = "番組の方向性".toList) ∧
    (∀ s c : Str, digitsNonempty s = true →
      generateTitleWith (banPreTok ++ '-' :: s) c = "番外編 ".toList ++ s) ∧
    (∀ (id c : Str) (as bs : List Str) (l : Str),
      ¬ banPreTok <+: id → id ≠ "0".toList →
      splitLines c = as ++ l :: bs →
      (∀ a ∈ as, ¬(hhTok <+: a ∧ ¬ sumTok <:+: a)) →
      hhTok <+: l → ¬ sumTok <:+: l →
      generateTitleWith id c = trimStr ((l.drop 2).dropWhile jsWhitespace)) ∧
    (∀ id c : Str, ¬ banPreTok <+: id → id ≠ "0".toList →
      (∀ a ∈ splitLines c, ¬(hhTok <+: a ∧ ¬ sumTok <:+: a)) →
      generateTitleWith id c = "エピソード ".toList ++ id) := by
  refine ⟨fun c => rfl, ?_, ?_, ?_⟩
  · intro s c hs
    have hdash : '-' ∉ s := by
      intro hm
      have := List.all_eq_true.mp ((Bool.and_eq_true _ _).mp hs).2 '-' hm
      simp [Char.isDigit] at this
    have hne : banPreTok ++ '-' :: s ≠ "0".toList := by
      intro h
      have := congrArg List.length h
      simp [List.length_append, banPreTok] at this
    unfold generateTitleWith
    rw [if_neg hne, if_pos (List.prefix_append banPreTok ('-' :: s))]
    rw [splitChar_append_sep (by decide) s, splitChar_no_sep hdash]
    rfl
  · intro id c as bs l hban h0 hsplit has hl hsum
    unfold generateTitleWith
    rw [if_neg h0, if_neg hban, hsplit, findHeadingLine_append_none has, findHeadingLine,
      if_pos ⟨hl, hsum⟩]
    show trimStr (stripTitleHashes l) = trimStr ((l.drop 2).dropWhile jsWhitespace)
    unfold stripTitleHashes
    rw [if_pos hl]
  · intro id c hban h0 hnone
    unfold generateTitleWith
    rw [if_neg h0, if_neg hban, findHeadingLine_none hnone]

/-- Witness for C4 (amended): concrete instances of the four precedence
cases. -/
theorem spec_C4_amended_witness :
    generateTitleWith "0".toList "x".toList = "番組の方向性".toList ∧
    generateTitleWith (banPreTok ++ '-' :: "7".toList) "x".toList =
      "番外編 ".toList ++ "7".toList ∧
    generateTitleWith "5".toList "x\n##  見出し \ny".toList =
      trimStr (("##  見出し ".toList.drop 2).dropWhile jsWhitespace) ∧
    generateTitleWith "5".toList "plain".toList = "エピソード ".toList ++ "5".toList :=
  ⟨spec_C4_amended.1 "x".toList,
   spec_C4_amended.2.1 "7".toList "x".toList (by decide),
   spec_C4_amended.2.2.1 "5".toList "x\n##  見出し \ny".toList ["x".toList] ["y".toList]
     "##  見出し ".toList (by decide) (by decide) (by decide)
     (by decide) (by decide) (by decide),
   spec_C4_amended.2.2.2 "5".toList "plain".toList (by decide) (by decide) (by decide)⟩

/-- An id with the 番外編 marker as prefix has sort key at least 1000. -/
theorem getOrder_extra {id : Str} (h : banPreTok <+: id) : 1000 ≤ getOrder id := by
  unfold getOrder
  have h0 : id ≠ "0".toList := by
    rintro rfl
    exact absurd h (by decide)
  rw [if_neg h0, if_pos h]
  exact Nat.le_add_right 1000 _

/-- Counterexample to C2 as stated: in the corpus with the accepted filenames
101.md and 番外編-1.md, the extra-episode record comes out first, before the
numbered record 101, because getOrder(101) = 1010 exceeds
getOrder(番外編-1) = 1001 — so extra episodes do not appear after all
numbered records in every corpus. -/
theorem spec_C2_counterexample :
    (processAllFiles [("101.md".toList, []), ("番外編-1.md".toList, [])]).map Episode.id =
      ["番外編-1".toList, "101".toList] ∧
    banPreTok <+: "番外編-1".toList ∧
    getOrder "101".toList = 1010 ∧ getOrder "番外編-1".toList = 1001 :=
  ⟨by with_unfolding_all decide, by decide, by decide, by decide⟩

/-- C2 (amended): the final episode sequence is sorted by the key getOrder
("0" maps to 0, a numbered id to 10 times its integer part plus its hyphen
suffix, an extra-episode id to 1000 plus its suffix — concrete instances
below); an extra-episode record appears after every numbered record whose key
is below 1000 (not after all numbered records: keys of numbered ids with
integer part at least 100 reach 1000); the worked example sorts as claimed. -/
theorem spec_C2_amended :
    (∀ files : List (Str × Str),
      (processAllFiles files).Pairwise (fun a b => getOrder a.id ≤ getOrder b.id)) ∧
    (getOrder "0".toList = 0 ∧ getOrder "2".toList = 20 ∧ getOrder "2-1".toList = 21 ∧
      getOrder "番外編-1".toList = 1001) ∧
    (∀ (files : List (Str × Str)) (i j : ℕ),
      i < (processAllFiles files).length → j < (processAllFiles files).length →
      banPreTok <+: ((processAllFiles files).getD i exampleEpisodeA).id →
      getOrder ((processAllFiles files).getD j exampleEpisodeA).id < 1000 →
      j < i) ∧
    (processAllFiles [("0.md".toList, []), ("1.md".toList, []), ("2-1.md".toList, []),
      ("2.md".toList, []), ("番外編-1.md".toList, [])]).map Episode.id =
      ["0".toList, "1".toList, "2".toList, "2-1".toList, "番外編-1".toList] := by
  have hsorted : ∀ files : List (Str × Str),
      (processAllFiles files).Pairwise (fun a b => getOrder a.id ≤ getOrder b.id) := by
    intro files
    simp only [processAllFiles]
    exact pairwise_sortWith epOrder (fun a b c h1 h2 => le_trans h1 h2)
      (fun a b => le_total _ _) _
  refine ⟨hsorted, ⟨by decide, by decide, by decide, by decide⟩, ?_,
    by with_unfolding_all decide⟩
  intro files i j hi hj hex hnum
  rcases lt_trichotomy i j with hij | hij | hij
  · have hle := List.pairwise_iff_get.mp (hsorted files) ⟨i, hi⟩ ⟨j, hj⟩ hij
    rw [← List.getD_eq_get (processAllFiles files) exampleEpisodeA hi,
      ← List.getD_eq_get (processAllFiles files) exampleEpisodeA hj] at hle
    have hkey := getOrder_extra hex
    omega
  · subst hij
    have hkey := getOrder_extra hex
    omega
  · exact hij

set_option maxRecDepth 100000 in
/-- Witness for C2 (amended) at a two-file corpus: the numbered record 1 at
position 0 precedes the extra record at position 1. -/
theorem spec_C2_amended_witness :
    (0 : ℕ) < 1 :=
  spec_C2_amended.2.2.1 [("1.md".toList, []), ("番外編-1.md".toList, [])] 1 0
    (by with_unfolding_all decide) (by with_unfolding_all decide)
    (by with_unfolding_all decide) (by with_unfolding_all decide)

/-- Witness for C8: the ids of 1.md and 2.md differ, and the demo corpus has
pairwise distinct ids. -/
theorem spec_C8_witness :
    ("1".toList ≠ "2".toList) ∧
    (processAllFiles demoFiles).Pairwise (fun a b => a.id ≠ b.id) :=
  ⟨spec_C8.1 "1.md".toList "2.md".toList "1".toList "2".toList
    (by decide) (by decide) (by decide),
   spec_C8.2 demoFiles (by decide)⟩

set_option maxRecDepth 100000 in
/-- Witness for C6 at the demo corpus: the first related entry of the first
episode names a different id. -/
theorem spec_C6_witness :
    (((processAllFiles demoFiles).getD 0 exampleEpisodeA).relatedEpisodes.getD 0
        ⟨[], [], 0⟩).id ≠ ((processAllFiles demoFiles).getD 0 exampleEpisodeA).id :=
  spec_C6 demoFiles ((processAllFiles demoFiles).getD 0 exampleEpisodeA)
    (getD_mem_of_lt (by with_unfolding_all decide) _)
    (((processAllFiles demoFiles).getD 0 exampleEpisodeA).relatedEpisodes.getD 0 ⟨[], [], 0⟩)
    (getD_mem_of_lt (by with_unfolding_all decide) _)

end ATP
